import Mathlib

/-!
Verification of the dot15d4 foundation layer.

A shallow embedding of the repository's two verified components:

* `src/dot15d4/src/time.rs` — `Instant` / `Duration`, signed 64-bit
  microsecond values.  Machine `i64` values are modelled as `Int` together
  with the range predicate `isI64`; operations that Rust performs with
  fixed-width wraparound are modelled with `wrapI64`, which reduces an
  integer into the `i64` range modulo `2^64`.
* `src/dot15d4/src/sync/channel.rs` — the single-slot overwrite channel.
  The slot (`UnsafeCell<MaybeUninit<T>>`) is modelled by `Option T`
  (`none` = storage never initialised); the waker is an opaque type
  parameter `W`.  `send` additionally records which wakers it woke and
  which slot values it dropped, so that wake-counting and value-lifecycle
  claims can be stated.
-/

/-! ## Machine-integer model -/

/-- The `i64` range predicate: `-2^63 ≤ x < 2^63`. -/
def isI64 (x : Int) : Prop := -(2 ^ 63) ≤ x ∧ x < 2 ^ 63

instance (x : Int) : Decidable (isI64 x) := by
  unfold isI64; infer_instance

/-- Reduce an integer into the `i64` range, as Rust's wrapping arithmetic
and wrapping `as` casts do: the result is congruent to `x` mod `2^64`
and lies in `[-2^63, 2^63)`. -/
def wrapI64 (x : Int) : Int := (x + 2 ^ 63) % 2 ^ 64 - 2 ^ 63

/-- The `rhs as i64` cast applied to a `usize` operand on a 64-bit
target: a wrapping cast of a value `k < 2^64`. -/
def usizeToI64 (k : Nat) : Int := wrapI64 (k : Int)

/-! ## `time.rs`: `Instant` and `Duration` -/

/-- Rust: `pub struct Instant { us: i64 }`. -/
structure Instant where
  us : Int
deriving DecidableEq

/-- Rust: `Instant::from_us`. -/
def Instant.from_us (us : Int) : Instant := ⟨us⟩

/-- Rust: `Instant::as_us`. -/
def Instant.as_us (a : Instant) : Int := a.us

/-- Rust: `pub struct Duration(i64);` (`val` models the tuple field `.0`). -/
structure Duration where
  val : Int
deriving DecidableEq

/-- Rust: `Duration::from_us`. -/
def Duration.from_us (us : Int) : Duration := ⟨us⟩

/-- Rust: `Duration::as_us`. -/
def Duration.as_us (d : Duration) : Int := d.val

/-- Rust: `impl Sub<Duration> for Instant`: `Self::from_us(self.us - rhs.as_us())`. -/
def Instant.sub_duration (a : Instant) (rhs : Duration) : Instant :=
  Instant.from_us (wrapI64 (a.us - rhs.as_us))

/-- Rust: `impl Add<Duration> for Instant`: `Self::from_us(self.us + rhs.as_us())`. -/
def Instant.add_duration (a : Instant) (rhs : Duration) : Instant :=
  Instant.from_us (wrapI64 (a.us + rhs.as_us))

/-- Rust: `impl Mul<usize> for Duration`: `Self::from_us(self.as_us() * rhs as i64)`
with wrapping multiplication and a wrapping `usize → i64` cast. -/
def Duration.mul_usize (d : Duration) (rhs : Nat) : Duration :=
  Duration.from_us (wrapI64 (d.as_us * usizeToI64 rhs))

/-- Rust: `impl Div<usize> for Duration`: `Self::from_us(self.as_us() / rhs as i64)`.
Rust `i64` division truncates toward zero (`Int.tdiv`); it cannot wrap
except at `i64::MIN / -1`, where Rust panics instead. -/
def Duration.div_usize (d : Duration) (rhs : Nat) : Duration :=
  Duration.from_us (Int.tdiv d.as_us (usizeToI64 rhs))

/-! ## `channel.rs`: the single-slot overwrite channel -/

/-- Rust: `struct ChannelState { is_ready: bool, waker: Option<Waker> }`.
The waker type is opaque; it is a type parameter `W`. -/
structure ChannelState (W : Type) where
  is_ready : Bool
  waker : Option W
deriving DecidableEq

/-- Rust: `pub struct Channel<T> { message: UnsafeCell<MaybeUninit<T>>, state: … }`.
`message = none` models storage that was never initialised.  After
`receive` moves a value out, the code leaves the bits in place and only
clears `is_ready`; the model likewise leaves `message` unchanged there,
so `message = some v` with `is_ready = false` models logically-moved-out
stale storage. -/
structure Channel (T W : Type) where
  message : Option T
  state : ChannelState W
deriving DecidableEq

/-- Rust: `Channel::new`: uninitialised storage, `is_ready: false`, `waker: None`. -/
def Channel.new {T W : Type} : Channel T W :=
  { message := none, state := { is_ready := false, waker := none } }

/-- Rust: `Channel::split`: `*self = Self::new();` — the old channel value is
dropped (`Channel<T>` has no `Drop` impl and `MaybeUninit` drops nothing,
so any resident value is discarded without running its destructor) and
the channel is reset to the empty state. -/
def Channel.split {T W : Type} (_c : Channel T W) : Channel T W :=
  Channel.new

/-- The observable outcome of one `Sender::send` call: the updated
channel, the returned `did_replace` flag, the wakers on which `wake()`
was invoked (in invocation order) and the slot values on which
`drop_in_place` was run. -/
structure SendResult (T W : Type) where
  channel : Channel T W
  did_replace : Bool
  woken : List W
  dropped : List T
deriving DecidableEq

/-- Rust: `Sender::send`, straight-line from the source: the `is_ready` branch
drops the old message, writes the new one and runs the first
`state.waker.take()` wake site; both branches then fall through to
`state.is_ready = true` followed by the second `state.waker.take()` wake
site, and `did_replace` is returned. -/
def Sender.send {T W : Type} (c : Channel T W) (message : T) : SendResult T W :=
  let st := c.state
  if st.is_ready then
    -- drop_in_place on the previous message, then write the new one
    let dropped := c.message.toList
    let msg : Option T := some message
    -- first wake site: `if let Some(waker) = state.waker.take() { waker.wake() }`
    let woken1 := st.waker.toList
    let st := { st with waker := none }
    -- common tail: `state.is_ready = true;` and the second wake site
    let st := { st with is_ready := true }
    let woken2 := st.waker.toList
    let st := { st with waker := none }
    { channel := { message := msg, state := st }
      did_replace := true, woken := woken1 ++ woken2, dropped := dropped }
  else
    -- slot empty: write the message
    let msg : Option T := some message
    -- common tail: `state.is_ready = true;` and the second wake site
    let st := { st with is_ready := true }
    let woken2 := st.waker.toList
    let st := { st with waker := none }
    { channel := { message := msg, state := st }
      did_replace := false, woken := woken2, dropped := [] }

/-- Outcome of one poll of `Receiver::receive`'s `poll_fn` closure.
`undef` marks the undefined behaviour of `assume_init_read` on storage
that was never initialised; it is proved unreachable below. -/
inductive PollResult (T : Type) where
  | pending
  | ready (v : T)
  | undef
deriving DecidableEq

/-- One poll of `Receiver::receive`: if `!state.is_ready`, store or
replace the context's waker and return `Pending`; otherwise move the
message out of the slot (`assume_init_read`, leaving the bits behind),
clear `is_ready` and return `Ready(message)`. -/
def Receiver.receivePoll {T W : Type} (c : Channel T W) (cxWaker : W) :
    Channel T W × PollResult T :=
  let st := c.state
  if !st.is_ready then
    -- both match arms of the source store the context's waker
    ({ c with state := { st with waker := some cxWaker } }, .pending)
  else
    match c.message with
    | some v =>
        ({ c with state := { st with is_ready := false } }, .ready v)
    | none => (c, .undef)

/-- One channel operation, for trace semantics: a `send`, one poll of a
pending `receive` (with the waker the executor would pass), or `split`. -/
inductive Op (T W : Type) where
  | send (v : T)
  | recvPoll (w : W)
  | split
deriving DecidableEq

/-- Apply one operation to the channel state. -/
def Channel.step {T W : Type} (c : Channel T W) : Op T W → Channel T W
  | .send v => (Sender.send c v).channel
  | .recvPoll w => (Receiver.receivePoll c w).1
  | .split => c.split

/-- Run a trace of operations. -/
def Channel.run {T W : Type} (c : Channel T W) (ops : List (Op T W)) : Channel T W :=
  ops.foldl Channel.step c

/-- A channel state reachable from `Channel::new` (equivalently, from the
state `split` produces) by some finite trace of operations. -/
def Channel.Reachable {T W : Type} (c : Channel T W) : Prop :=
  ∃ ops : List (Op T W), Channel.run Channel.new ops = c

/-- Lifecycle accounting along a trace.  `constructed` counts values of
`T` written into the slot by `send`; `destroyed` counts destructor runs:
`drop_in_place` in `send`'s overwrite branch, plus the eventual drop, by
the receiving caller, of each value `receive` moves out; `leaked` counts
resident values discarded without their destructor when `split` replaces
the channel (`Channel<T>` has no `Drop` impl). -/
structure LifeState (T W : Type) where
  channel : Channel T W
  constructed : Nat
  destroyed : Nat
  leaked : Nat
deriving DecidableEq

/-- One accounting step. -/
def LifeState.step {T W : Type} (s : LifeState T W) : Op T W → LifeState T W
  | .send v =>
      let r := Sender.send s.channel v
      { channel := r.channel, constructed := s.constructed + 1
        destroyed := s.destroyed + r.dropped.length, leaked := s.leaked }
  | .recvPoll w =>
      match Receiver.receivePoll s.channel w with
      | (c, .ready _) =>
          { channel := c, constructed := s.constructed
            destroyed := s.destroyed + 1, leaked := s.leaked }
      | (c, _) =>
          { channel := c, constructed := s.constructed
            destroyed := s.destroyed, leaked := s.leaked }
  | .split =>
      { channel := s.channel.split, constructed := s.constructed
        destroyed := s.destroyed
        leaked := s.leaked + (if s.channel.state.is_ready then 1 else 0) }

/-- Lifecycle accounting for a whole trace starting from a fresh channel. -/
def LifeState.run {T W : Type} (ops : List (Op T W)) : LifeState T W :=
  ops.foldl LifeState.step
    { channel := Channel.new, constructed := 0, destroyed := 0, leaked := 0 }

/-- How many destructors of `T` run when the `Channel` itself is
destroyed: `Channel<T>` has no `Drop` implementation and
`MaybeUninit<T>` never drops its contents, so the answer is zero, even
when the slot holds an unread value. -/
def Channel.dropDestroys {T W : Type} (_c : Channel T W) : Nat := 0

/-! ## Helper lemmas -/

/-- Both branches of `send` leave the channel in the same shape: message
installed, `is_ready` set, waker taken. -/
theorem send_channel_eq {T W : Type} (c : Channel T W) (v : T) :
    (Sender.send c v).channel =
      { message := some v, state := { is_ready := true, waker := none } } := by
  by_cases h : c.state.is_ready <;> simp [Sender.send, h]

theorem run_append {T W : Type} (c : Channel T W) (xs ys : List (Op T W)) :
    Channel.run c (xs ++ ys) = Channel.run (Channel.run c xs) ys :=
  List.foldl_append _ _ _ _

/-! ## Claim theorems -/

/-- C3: `send` returns `true` iff `is_ready` was `true` immediately before
the call (an unread value was present and is overwritten) and `false` iff
it was `false`; `send` always succeeds, installs the message, and leaves
`is_ready = true`. -/
theorem send_did_replace_iff {T W : Type} (c : Channel T W) (v : T) :
    (Sender.send c v).did_replace = c.state.is_ready ∧
    (Sender.send c v).channel.state.is_ready = true ∧
    (Sender.send c v).channel.message = some v := by
  by_cases h : c.state.is_ready <;> simp [Sender.send, h]

/-- C7: one `send` call wakes the registered waker exactly once when one
was registered at entry, and wakes nothing when none was: the list of
wake invocations is exactly `Option.toList` of the entry waker, so the
overwrite path never produces two wakes despite its two wake sites. -/
theorem send_wakes_once {T W : Type} (c : Channel T W) (v : T) :
    (Sender.send c v).woken = c.state.waker.toList ∧
    (Sender.send c v).woken.length =
      (if c.state.waker.isSome then 1 else 0) := by
  by_cases h : c.state.is_ready <;>
    cases hw : c.state.waker <;> simp [Sender.send, h, hw]

/-- C6: whatever the prior state, `split` yields a channel with
`is_ready = false` and no waker, and a `receive` poll on the result with
no prior `send` returns `Pending` (suspends). -/
theorem split_resets_to_empty {T W : Type} (c : Channel T W) (w : W) :
    (c.split).state.is_ready = false ∧
    (c.split).state.waker = none ∧
    (Receiver.receivePoll c.split w).2 = PollResult.pending := by
  refine ⟨rfl, rfl, ?_⟩
  simp [Channel.split, Channel.new, Receiver.receivePoll]

/-- C2: starting from an empty channel, after `send v₁ … send vₙ`
(`n ≥ 1`, encoded as `ys ++ [v]`) a single `receive` poll resolves with
exactly the last sent value `v`; since this is the only receive in the
trace, none of the earlier values is ever returned by a receive. -/
theorem sends_then_receive_yields_last {T W : Type} (ys : List T) (v : T) (w : W) :
    (Receiver.receivePoll
        (Channel.run Channel.new ((ys ++ [v]).map Op.send)) w).2
      = PollResult.ready v := by
  have hrun : Channel.run (Channel.new : Channel T W) ((ys ++ [v]).map Op.send)
      = { message := some v, state := { is_ready := true, waker := none } } := by
    rw [List.map_append, run_append]
    simp [Channel.run, Channel.step, send_channel_eq]
  rw [hrun]
  simp [Receiver.receivePoll]

/-- The channel invariant: while a value is ready no waker is registered,
and while a value is ready the slot really is initialised. -/
def ChannelInv {T W : Type} (c : Channel T W) : Prop :=
  (c.state.is_ready = true → c.state.waker = none) ∧
  (c.state.is_ready = true → c.message.isSome = true)

theorem channelInv_new {T W : Type} : ChannelInv (Channel.new : Channel T W) := by
  simp [ChannelInv, Channel.new]

theorem channelInv_step {T W : Type} (c : Channel T W) (h : ChannelInv c)
    (op : Op T W) : ChannelInv (c.step op) := by
  obtain ⟨h1, h2⟩ := h
  cases op with
  | send v =>
      simp [Channel.step, send_channel_eq, ChannelInv]
  | recvPoll w =>
      by_cases hr : c.state.is_ready
      · cases hm : c.message with
        | none => exact absurd (h2 hr) (by simp [hm])
        | some v =>
            simp [Channel.step, Receiver.receivePoll, hr, hm, ChannelInv]
      · have hr2 : c.state.is_ready = false := by simpa using hr
        simp [Channel.step, Receiver.receivePoll, hr2, ChannelInv]
  | split =>
      simp [Channel.step, Channel.split, Channel.new, ChannelInv]

theorem channelInv_run {T W : Type} (c : Channel T W) (h : ChannelInv c)
    (ops : List (Op T W)) : ChannelInv (Channel.run c ops) := by
  induction ops generalizing c with
  | nil => exact h
  | cons op rest ih =>
      exact ih _ (channelInv_step c h op)

theorem reachable_inv {T W : Type} (c : Channel T W) (h : c.Reachable) :
    ChannelInv c := by
  obtain ⟨ops, rfl⟩ := h
  exact channelInv_run _ channelInv_new ops

/-- C1: in every reachable channel state, `is_ready = true` and a
registered waker never coexist — any operation that makes the slot ready
takes the waker in the same step, and a waker is only stored while the
slot is not ready. -/
theorem ready_excludes_waker {T W : Type} (c : Channel T W)
    (h : c.Reachable) (hr : c.state.is_ready = true) :
    c.state.waker = none :=
  (reachable_inv c h).1 hr

/-- Witness for C1 at the concrete reachable state `run new [send 0]`. -/
theorem ready_excludes_waker_witness :
    (Channel.run (Channel.new : Channel Nat Unit) [Op.send 0]).state.is_ready
        = true ∧
    (Channel.run (Channel.new : Channel Nat Unit) [Op.send 0]).state.waker
        = none :=
  ⟨rfl, ready_excludes_waker _ ⟨[Op.send 0], rfl⟩ rfl⟩

/-- C4: when a `receive` poll resolves with a value, the channel it
leaves behind has `is_ready = false` (the slot is logically vacated), and
a further `receive` poll on that state, with no intervening `send`,
returns `Pending`. -/
theorem receive_resolving_empties {T W : Type} (c c2 : Channel T W)
    (w : W) (v : T)
    (h : Receiver.receivePoll c w = (c2, PollResult.ready v)) :
    c2.state.is_ready = false ∧
    ∀ w2 : W, (Receiver.receivePoll c2 w2).2 = PollResult.pending := by
  by_cases hr : c.state.is_ready
  · cases hm : c.message with
    | none =>
        simp [Receiver.receivePoll, hr, hm] at h
    | some x =>
        simp [Receiver.receivePoll, hr, hm] at h
        obtain ⟨hc2, -⟩ := h
        subst hc2
        constructor
        · rfl
        · intro w2
          simp [Receiver.receivePoll]
  · simp [Receiver.receivePoll, hr] at h

/-- Witness for C4 at the concrete state holding the value `5`. -/
theorem receive_resolving_empties_witness :
    ({ message := some 5,
       state := { is_ready := false, waker := none } } :
        Channel Nat Unit).state.is_ready = false ∧
    (Receiver.receivePoll
        ({ message := some 5,
           state := { is_ready := false, waker := none } } :
            Channel Nat Unit) ()).2 = PollResult.pending := by
  have h := receive_resolving_empties
      ({ message := some 5, state := { is_ready := true, waker := none } } :
        Channel Nat Unit)
      { message := some 5, state := { is_ready := false, waker := none } }
      () 5 (by decide)
  exact ⟨h.1, h.2 ()⟩

/-- Lifecycle invariant: the channel invariant holds and the counters
balance, with one as-yet-undestroyed value resident exactly when
`is_ready` is set. -/
def LifeInv {T W : Type} (s : LifeState T W) : Prop :=
  ChannelInv s.channel ∧
  s.constructed = s.destroyed + s.leaked +
    (if s.channel.state.is_ready then 1 else 0)

theorem lifeInv_step {T W : Type} (s : LifeState T W) (h : LifeInv s)
    (op : Op T W) : LifeInv (s.step op) := by
  obtain ⟨⟨hi1, hi2⟩, hcnt⟩ := h
  cases op with
  | send v =>
      by_cases hr : s.channel.state.is_ready
      · cases hm : s.channel.message with
        | none => exact absurd (hi2 hr) (by simp [hm])
        | some x =>
            refine ⟨?_, ?_⟩
            · simp [LifeState.step, send_channel_eq, ChannelInv]
            · simp only [LifeState.step, Sender.send, hr, if_true, hm]
              simp only [hr, if_true] at hcnt
              simp [send_channel_eq]
              omega
      · have hr2 : s.channel.state.is_ready = false := by simpa using hr
        refine ⟨?_, ?_⟩
        · simp [LifeState.step, send_channel_eq, ChannelInv]
        · simp only [LifeState.step, Sender.send, hr2, Bool.false_eq_true,
            if_false]
          simp only [hr2, Bool.false_eq_true, if_false] at hcnt
          simp [send_channel_eq]
          omega
  | recvPoll w =>
      by_cases hr : s.channel.state.is_ready
      · cases hm : s.channel.message with
        | none => exact absurd (hi2 hr) (by simp [hm])
        | some x =>
            simp only [hr, if_true] at hcnt
            refine ⟨⟨?_, ?_⟩, ?_⟩ <;>
                simp [LifeState.step, Receiver.receivePoll, hr, hm]
            omega
      · have hr2 : s.channel.state.is_ready = false := by simpa using hr
        simp only [hr2, Bool.false_eq_true, if_false] at hcnt
        refine ⟨⟨?_, ?_⟩, ?_⟩ <;>
            simp [LifeState.step, Receiver.receivePoll, hr2, hi2]
        omega
  | split =>
      refine ⟨⟨?_, ?_⟩, ?_⟩ <;>
        simp [LifeState.step, Channel.split, Channel.new]
      by_cases hr : s.channel.state.is_ready <;> simp [hr] at hcnt ⊢ <;> omega

theorem lifeInv_foldl {T W : Type} (s : LifeState T W) (h : LifeInv s)
    (ops : List (Op T W)) : LifeInv (ops.foldl LifeState.step s) := by
  induction ops generalizing s with
  | nil => exact h
  | cons op rest ih => exact ih _ (lifeInv_step s h op)

theorem lifeInv_run {T W : Type} (ops : List (Op T W)) :
    LifeInv (LifeState.run ops) :=
  lifeInv_foldl _ ⟨channelInv_new, by simp [Channel.new]⟩ ops

/-- C5 counterexample: after `send 0` followed by `split` (and then
destruction of the `Channel`, which destroys nothing since `Channel<T>`
has no `Drop` impl), one value was constructed into the slot but zero
destructor runs ever happen — the residual value is leaked, so total
constructions do not equal total destructions. -/
theorem lifecycle_claim_fails :
    (LifeState.run [Op.send 0, Op.split] : LifeState Nat Unit).constructed
        = 1 ∧
    (LifeState.run [Op.send 0, Op.split] : LifeState Nat Unit).destroyed +
      Channel.dropDestroys
        (LifeState.run [Op.send 0, Op.split] : LifeState Nat Unit).channel
        = 0 := by
  decide

/-- C5 amended: no value is ever destroyed twice and the counters always
balance as `constructed = destroyed + leaked + (1 if a value is
currently resident)`: every value overwritten by `send` or consumed by
`receive` is destroyed exactly once, but a value still resident when
`split` is called is leaked (never destroyed), and destroying the
`Channel` itself destroys nothing, leaking any resident value. -/
theorem lifecycle_accounting {T W : Type} (ops : List (Op T W)) :
    (LifeState.run ops).constructed =
      (LifeState.run ops).destroyed + (LifeState.run ops).leaked +
        (if (LifeState.run ops).channel.state.is_ready then 1 else 0) ∧
    Channel.dropDestroys (LifeState.run ops).channel = 0 :=
  ⟨(lifeInv_run ops).2, rfl⟩

theorem wrapI64_eq_self {x : Int} (h : isI64 x) : wrapI64 x = x := by
  obtain ⟨h1, h2⟩ := h
  unfold wrapI64
  omega

theorem wrapI64_add_left (x y : Int) :
    wrapI64 (wrapI64 x + y) = wrapI64 (x + y) := by
  unfold wrapI64
  omega

/-- Truncated division of an integer by a positive divisor, expressed
through sign and absolute value. -/
theorem tdiv_sign_natAbs (a : Int) (k : Nat) :
    Int.tdiv a (k : Int) = a.sign * ((a.natAbs / k : Nat) : Int) := by
  cases a with
  | ofNat n =>
      cases n with
      | zero => simp [Int.tdiv]
      | succ m => simp [Int.tdiv, Int.sign, Int.natAbs]
  | negSucc n => simp [Int.tdiv, Int.sign, Int.natAbs]

/-- C8: for every `Instant` `a` and `Duration` `b` whose microsecond
counts are valid `i64` values, `(a − b) + b = a` under the wrapping
64-bit arithmetic of the underlying counters. -/
theorem instant_sub_add_cancel (a : Instant) (b : Duration)
    (ha : isI64 a.us) (hb : isI64 b.val) :
    (a.sub_duration b).add_duration b = a := by
  cases a with | mk x =>
  cases b with | mk y =>
  simp only [Instant.sub_duration, Instant.add_duration, Duration.as_us,
    Instant.from_us, Instant.mk.injEq]
  rw [wrapI64_add_left]
  have hx : x - y + y = x := by ring
  rw [hx]
  exact wrapI64_eq_self ha

/-- Witness for C8 at `a = 100 µs`, `b = 30 µs`. -/
theorem instant_sub_add_cancel_witness :
    isI64 (Instant.from_us 100).us ∧ isI64 (Duration.from_us 30).val ∧
    ((Instant.from_us 100).sub_duration (Duration.from_us 30)).add_duration
        (Duration.from_us 30) = Instant.from_us 100 :=
  ⟨by decide, by decide, instant_sub_add_cancel _ _ (by decide) (by decide)⟩

/-- C9: for every `Duration` `d` and nonzero `usize` `k` representable as
a nonnegative `i64`, `d ÷ k` is integer division truncating toward zero
on the microsecond count (sign of `d` times the floor of `|d| / k`), in
particular `Duration(-100) ÷ 3 = Duration(-33)`; and `(d × k) ÷ k = d`
whenever the multiplication does not overflow `i64`. -/
theorem duration_div_truncates (d : Duration) (k : Nat)
    (hk0 : 0 < k) (hk1 : (k : Int) < 2 ^ 63) :
    (d.div_usize k).val = d.val.sign * ((d.val.natAbs / k : Nat) : Int) ∧
    (isI64 (d.val * k) → (d.mul_usize k).div_usize k = d) ∧
    Duration.div_usize (Duration.from_us (-100)) 3
      = Duration.from_us (-33) := by
  have hcast : usizeToI64 k = (k : Int) := by
    apply wrapI64_eq_self
    constructor
    · omega
    · exact hk1
  refine ⟨?_, ?_, by decide⟩
  · simp only [Duration.div_usize, Duration.as_us, Duration.from_us, hcast]
    exact tdiv_sign_natAbs d.val k
  · intro hov
    have hkz : (k : Int) ≠ 0 := by omega
    simp only [Duration.mul_usize, Duration.div_usize, Duration.as_us,
      Duration.from_us, hcast]
    rw [wrapI64_eq_self hov, Int.mul_tdiv_cancel _ hkz]

/-- Witness for C9 at `d = −100 µs`, `k = 3`. -/
theorem duration_div_truncates_witness :
    0 < 3 ∧ ((3 : Nat) : Int) < 2 ^ 63 ∧
    (((Duration.from_us (-100)).div_usize 3).val =
        (Duration.from_us (-100)).val.sign *
          (((Duration.from_us (-100)).val.natAbs / 3 : Nat) : Int) ∧
      (isI64 ((Duration.from_us (-100)).val * (3 : Nat)) →
        ((Duration.from_us (-100)).mul_usize 3).div_usize 3
          = Duration.from_us (-100)) ∧
      Duration.div_usize (Duration.from_us (-100)) 3
        = Duration.from_us (-33)) :=
  ⟨by decide, by decide,
    duration_div_truncates (Duration.from_us (-100)) 3 (by decide) (by decide)⟩

/-- C10: the `usize` operand of `Duration` multiplication and division is
converted with a wrapping `as i64` cast, so on a 64-bit target every
`k > i64::MAX` acts as the negative value `k − 2^64`; in particular
multiplying by `usize::MAX = 2^64 − 1` scales the count by `−1` modulo
`2^64` instead of by the mathematical value of `k`. -/
theorem usize_cast_wraps (d : Duration) (k : Nat)
    (h1 : 2 ^ 63 ≤ k) (h2 : k < 2 ^ 64) :
    usizeToI64 k = (k : Int) - 2 ^ 64 ∧
    d.mul_usize (2 ^ 64 - 1) = Duration.from_us (wrapI64 (-(d.val))) := by
  constructor
  · unfold usizeToI64 wrapI64
    omega
  · have hmax : usizeToI64 (2 ^ 64 - 1) = -1 := by decide
    simp only [Duration.mul_usize, Duration.as_us, hmax, Duration.from_us,
      mul_neg_one]

/-- Witness for C10 at `d = 7 µs`, `k = 2^63`. -/
theorem usize_cast_wraps_witness :
    2 ^ 63 ≤ (2 ^ 63 : Nat) ∧ (2 ^ 63 : Nat) < 2 ^ 64 ∧
    (usizeToI64 (2 ^ 63) = ((2 ^ 63 : Nat) : Int) - 2 ^ 64 ∧
      (Duration.from_us 7).mul_usize (2 ^ 64 - 1)
        = Duration.from_us (wrapI64 (-(Duration.from_us 7).val))) :=
  ⟨by decide, by decide,
    usize_cast_wraps (Duration.from_us 7) (2 ^ 63) (by decide) (by decide)⟩
